import Mathlib

/-!
Shallow embedding of the queue service core (`app/main.py`, `app/models.py`,
`app/database.py`) of the queueCallforXibo repository, together with proofs
about its specification.

Modelling conventions:
* Python strings are embedded as `List Char`; calendar dates as `Nat` codes.
* `datetime` values are embedded as a `Timestamp` structure carrying the
  components the code actually inspects (`minute`, `second`, `microsecond`)
  plus a coarse `day`/`hour` part, so that equality of timestamps is faithful.
* Database tables become lists inside a `Store` record; SQL queries with
  `ORDER BY ticket_index ASC/DESC ... first()` become `pickMin` / `pickMax`
  selections below, and row mutation becomes positional `List.set`.
* The nondeterministic clock (`date.today()`, `datetime.utcnow()`) is threaded
  through every operation as an explicit argument.
* Each HTTP handler becomes a total function returning the post-state plus an
  `Except PyErr _` result; a raised `HTTPException` before any commit returns
  the unchanged store, while commits that happened before the raise are kept
  (as in `create_entry`, which commits the implicitly created day first).
-/

/-- Entry status. In the source this is the string column `status` with values
`"waiting"`, `"active"`, `"served"` (default `'waiting'` added by the migration
in `app/database.py`). -/
inductive Status where
  | waiting
  | active
  | served
deriving DecidableEq

/-- The components of a Python `datetime` that the code inspects or stores.
`truncate_to_window` only rewrites `minute`, `second`, `microsecond`. -/
structure Timestamp where
  day : Nat
  hour : Nat
  minute : Nat
  second : Nat
  microsecond : Nat
deriving DecidableEq

/-- Row of table `queueentry` (`app/models.py`, plus the `status` and
`birthday` columns added in `app/database.py`). -/
structure QueueEntry where
  id : Nat
  service_date : Nat
  ticket_index : Nat
  ticket_number : List Char
  name : List Char
  phone : List Char
  birthday : Option Nat
  status : Status
deriving DecidableEq

/-- Row of table `queueday` (`app/models.py`). -/
structure QueueDay where
  service_date : Nat
  started_at : Timestamp
deriving DecidableEq

/-- Row of the load-snapshot table (`QueueLoadSnapshot` in `app/main.py`;
primary key `(service_date, window_start)`). -/
structure QueueLoadSnapshot where
  service_date : Nat
  window_start : Timestamp
  pending_count : Nat
  waiting_count : Nat
  served_count : Nat
  captured_at : Timestamp
deriving DecidableEq

/-- The whole database: the three tables plus the autoincrement counter used
for `QueueEntry.id`. -/
structure Store where
  days : List QueueDay
  entries : List QueueEntry
  snapshots : List QueueLoadSnapshot
  nextId : Nat
deriving DecidableEq

def emptyStore : Store := ⟨[], [], [], 0⟩

/-- The errors raised as `HTTPException` by the handlers (identified by their
detail message in the source). -/
inductive PyErr where
  | phoneRequired
  | invalidPhone
  | dayAlreadyStarted
  | dayActiveCannotReset
  | nameAndPhoneRequired
  | queueFull
  | entryNotFound
  | editWindowClosed
  | noFieldsToEdit
  | emptyName
  | emptyPhone
  | noPreviousEntry
deriving DecidableEq

instance {ε α : Type} [DecidableEq ε] [DecidableEq α] : DecidableEq (Except ε α) := fun x y =>
  match x, y with
  | .ok a, .ok b =>
    if h : a = b then .isTrue (by rw [h]) else .isFalse (by intro hc; cases hc; exact h rfl)
  | .error a, .error b =>
    if h : a = b then .isTrue (by rw [h]) else .isFalse (by intro hc; cases hc; exact h rfl)
  | .ok _, .error _ => .isFalse (by intro hc; cases hc)
  | .error _, .ok _ => .isFalse (by intro hc; cases hc)

/-! ## Phone normalisation (`normalize_digits`, `normalize_phone`) -/

/-- One character of `str.translate(PERSIAN_DIGIT_TRANSLATION)`: Persian and
Arabic-Indic digit glyphs map to their ASCII digits, everything else is kept. -/
def translateChar (c : Char) : Char :=
  if c = '۰' then '0' else if c = '۱' then '1'
  else if c = '۲' then '2' else if c = '۳' then '3'
  else if c = '۴' then '4' else if c = '۵' then '5'
  else if c = '۶' then '6' else if c = '۷' then '7'
  else if c = '۸' then '8' else if c = '۹' then '9'
  else if c = '٠' then '0' else if c = '١' then '1'
  else if c = '٢' then '2' else if c = '٣' then '3'
  else if c = '٤' then '4' else if c = '٥' then '5'
  else if c = '٦' then '6' else if c = '٧' then '7'
  else if c = '٨' then '8' else if c = '٩' then '9'
  else c

/-- `normalize_digits` from `app/main.py`. -/
def normalize_digits (value : List Char) : List Char :=
  value.map translateChar

/-- The whitespace class stripped by Python's `str.strip` and matched by the
regex class `\s` (restricted to its ASCII part, which is the only part the
spec's inputs exercise). -/
def isPySpace (c : Char) : Bool :=
  c = ' ' || c = '\t' || c = '\n' || c = '\x0d' || c = '\x0b' || c = '\x0c'

/-- Python `str.strip()` on both ends. -/
def pyStrip (l : List Char) : List Char :=
  ((l.dropWhile isPySpace).reverse.dropWhile isPySpace).reverse

/-- A character removed by `re.sub(r"[\s\-()]+", "", ...)`. -/
def isStripChar (c : Char) : Bool :=
  isPySpace c || c = '-' || c = '(' || c = ')'

/-- Python `s.startswith(pre)` on our character lists. -/
def startsWith (l : List Char) (pre : List Char) : Bool :=
  match pre, l with
  | [], _ => true
  | _ :: _, [] => false
  | p :: ps, c :: cs => p == c && startsWith cs ps

/-- The cleaned form of a phone input: digit-glyph translation followed by
removal of whitespace, hyphens and parentheses (first lines of
`normalize_phone`). -/
def cleanedPhone (phone : List Char) : List Char :=
  (normalize_digits phone).filter (fun c => !isStripChar c)

/-- `normalize_phone` from `app/main.py`.  (Python's `str.isdigit` is embedded
as ASCII `Char.isDigit`; after the digit-glyph translation these coincide on
every input shape the function accepts.) -/
def normalize_phone (phone : List Char) : Except PyErr (List Char) :=
  let cleaned0 := cleanedPhone phone
  if cleaned0.isEmpty then .error .phoneRequired
  else
    let cleaned := if startsWith cleaned0 ['0', '0'] then '+' :: cleaned0.drop 2 else cleaned0
    let digits := if startsWith cleaned ['+'] then cleaned.drop 1 else cleaned
    let localPart : Except PyErr (List Char) :=
      if startsWith digits ['9', '8'] then .ok (digits.drop 2)
      else if startsWith digits ['0'] ∧ digits.length = 11 ∧ digits.get? 1 = some '9' then
        .ok (digits.drop 1)
      else if startsWith digits ['9'] ∧ digits.length = 10 then .ok digits
      else .error .invalidPhone
    match localPart with
    | .error e => .error e
    | .ok lp =>
      if lp.length = 10 ∧ lp.all Char.isDigit ∧ startsWith lp ['9'] then
        .ok ('+' :: '9' :: '8' :: lp)
      else .error .invalidPhone

/-! ## Ticket display code (`f"{next_index:03d}"`) -/

def digitChar (n : Nat) : Char := Char.ofNat (48 + n)

/-- Decimal digits of `n`, computed with structural fuel. -/
def natDigitsAux : Nat → Nat → List Char
  | 0, _ => []
  | fuel + 1, n => if n < 10 then [digitChar n] else natDigitsAux fuel (n / 10) ++ [digitChar (n % 10)]

def natDigits (n : Nat) : List Char := natDigitsAux (n + 1) n

/-- Python `f"{n:03d}"` for nonnegative `n`. -/
def pad3 (n : Nat) : List Char :=
  List.replicate (3 - (natDigits n).length) '0' ++ natDigits n

/-! ## Query selections

`SELECT ... WHERE p ORDER BY ticket_index ASC ... first()` over a list of rows
becomes `pickMin p`: the position and value of the `p`-satisfying row with the
least ticket index (the earliest such row on ties, which cannot occur within a
date thanks to the `(service_date, ticket_index)` unique constraint).
`pickMax` is the `DESC` variant. -/

def pickMin (p : QueueEntry → Prop) [DecidablePred p] : List QueueEntry → Option (Nat × QueueEntry)
  | [] => none
  | e :: rest =>
    if p e then
      match pickMin p rest with
      | none => some (0, e)
      | some (j, b) =>
        if e.ticket_index ≤ b.ticket_index then some (0, e) else some (j + 1, b)
    else
      match pickMin p rest with
      | none => none
      | some (j, b) => some (j + 1, b)

def pickMax (p : QueueEntry → Prop) [DecidablePred p] : List QueueEntry → Option (Nat × QueueEntry)
  | [] => none
  | e :: rest =>
    if p e then
      match pickMax p rest with
      | none => some (0, e)
      | some (j, b) =>
        if b.ticket_index ≤ e.ticket_index then some (0, e) else some (j + 1, b)
    else
      match pickMax p rest with
      | none => none
      | some (j, b) => some (j + 1, b)

/-- `get_active_entry` (`app/main.py`): first `active` entry of the date by
ascending ticket index, returned with its position in the table. -/
def get_active_entry (d : Nat) (l : List QueueEntry) : Option (Nat × QueueEntry) :=
  pickMin (fun e => e.service_date = d ∧ e.status = Status.active) l

/-- `get_last_served_entry` (`app/main.py`): highest-index `served` entry. -/
def get_last_served_entry (d : Nat) (l : List QueueEntry) : Option (Nat × QueueEntry) :=
  pickMax (fun e => e.service_date = d ∧ e.status = Status.served) l

/-- `get_next_waiting_entry` (`app/main.py`): lowest-index `waiting` entry with
index strictly above `after_index`, falling back to the lowest-index `waiting`
entry overall. -/
def get_next_waiting_entry (d : Nat) (after_index : Nat) (l : List QueueEntry) :
    Option (Nat × QueueEntry) :=
  match pickMin (fun e => e.service_date = d ∧ e.status = Status.waiting ∧
      after_index < e.ticket_index) l with
  | some r => some r
  | none => pickMin (fun e => e.service_date = d ∧ e.status = Status.waiting) l

/-! ## Summary and snapshots -/

/-- The three counters of `summarize_queue` over the (date-filtered) entry
list: `(waiting_count, served_count, pending_count)` with
`pending = len(entries) - served`. -/
def summarize_counts (l : List QueueEntry) : Nat × Nat × Nat :=
  (l.countP (fun e => decide (e.status = Status.waiting)),
   l.countP (fun e => decide (e.status = Status.served)),
   l.length - l.countP (fun e => decide (e.status = Status.served)))

/-- `truncate_to_window` (`app/main.py`): round the minute down to the nearest
multiple of `minutes` and zero the seconds/microseconds. -/
def truncate_to_window (dt : Timestamp) (minutes : Nat := 30) : Timestamp :=
  { dt with minute := dt.minute / minutes * minutes, second := 0, microsecond := 0 }

/-- The `session.get` + insert-or-update of `record_queue_snapshot`: replace
the (unique) row with primary key `(d, w)` if present, else append a new row. -/
def upsertSnapshot (d : Nat) (w : Timestamp) (pend wait serv : Nat) (now : Timestamp) :
    List QueueLoadSnapshot → List QueueLoadSnapshot
  | [] => [⟨d, w, pend, wait, serv, now⟩]
  | r :: rest =>
    if r.service_date = d ∧ r.window_start = w then
      { r with pending_count := pend, waiting_count := wait, served_count := serv,
               captured_at := now } :: rest
    else r :: upsertSnapshot d w pend wait serv now rest

/-- `record_queue_snapshot` (`app/main.py`) with the current time passed in. -/
def record_queue_snapshot (d : Nat) (now : Timestamp) (s : Store) : Store :=
  let entries := s.entries.filter (fun e => decide (e.service_date = d))
  let summary := summarize_counts entries
  let window_start := truncate_to_window now
  { s with snapshots :=
      upsertSnapshot d window_start summary.2.2 summary.1 summary.2.1 now s.snapshots }

/-! ## Handlers -/

/-- `start_day` (`app/main.py`).  `session.get(QueueDay, d)` is the first (and
under the primary key, only) row with that date; deleting it is `eraseP` of the
first match, and the bulk `delete(QueueEntry).where(...)` removes every entry
of the date. -/
def start_day (d : Nat) (overwrite : Bool) (now : Timestamp) (s : Store) :
    Store × Except PyErr QueueDay :=
  let existing := s.days.find? (fun q => decide (q.service_date = d))
  let entries_exist := s.entries.any (fun e => decide (e.service_date = d))
  match existing with
  | some _ =>
    if !overwrite then (s, .error .dayAlreadyStarted)
    else if entries_exist then (s, .error .dayActiveCannotReset)
    else
      let s1 : Store :=
        { s with days := s.days.eraseP (fun q => decide (q.service_date = d)),
                 entries := s.entries.filter (fun e => !decide (e.service_date = d)) }
      let day : QueueDay := ⟨d, now⟩
      (record_queue_snapshot d now { s1 with days := s1.days ++ [day] }, .ok day)
  | none =>
    let day : QueueDay := ⟨d, now⟩
    (record_queue_snapshot d now { s with days := s.days ++ [day] }, .ok day)

/-- `create_entry` (`app/main.py`).  Note the order of effects in the source:
the implicitly created `QueueDay` is committed *before* the name/phone
validation, the phone normalisation and the capacity check, so those failures
keep the committed day.  The new entry's `status` is the column default
`'waiting'` from `app/database.py`. -/
def create_entry (d : Nat) (name0 phone0 : List Char) (birthday : Option Nat)
    (now : Timestamp) (s : Store) : Store × Except PyErr QueueEntry :=
  let s :=
    if s.days.any (fun q => decide (q.service_date = d)) then s
    else { s with days := s.days ++ [⟨d, now⟩] }
  let name := pyStrip name0
  let phone := pyStrip phone0
  if name.isEmpty || phone.isEmpty then (s, .error .nameAndPhoneRequired)
  else
    match normalize_phone phone with
    | .error e => (s, .error e)
    | .ok normalized_phone =>
      let max_index := ((s.entries.filter (fun e => decide (e.service_date = d))).map
        (fun e => e.ticket_index)).max?
      let current_index := max_index.getD 0
      let next_index := current_index + 1
      if next_index > 999 then (s, .error .queueFull)
      else
        let entry : QueueEntry :=
          ⟨s.nextId, d, next_index, pad3 next_index, name, normalized_phone, birthday,
           Status.waiting⟩
        let s' : Store := { s with entries := s.entries ++ [entry], nextId := s.nextId + 1 }
        (record_queue_snapshot d now s', .ok entry)

/-- The field updates of `update_entry` applied to one row; any raise rolls the
transaction back, so an error leaves the row as it was.  An explicit JSON
`null` for `name`/`phone` behaves as the empty string in the source
(`updates["name"] or ""`), so those are encoded as `some []`. -/
def apply_name (e : QueueEntry) : Option (List Char) → Except PyErr QueueEntry
  | none => .ok e
  | some n =>
    let n' := pyStrip n
    if n'.isEmpty then .error .emptyName else .ok { e with name := n' }

def apply_phone (e : QueueEntry) : Option (List Char) → Except PyErr QueueEntry
  | none => .ok e
  | some p =>
    let pv := normalize_digits (pyStrip p)
    if pv.isEmpty then .error .emptyPhone
    else
      match normalize_phone pv with
      | .error err => .error err
      | .ok np => .ok { e with phone := np }

def apply_birthday (e : QueueEntry) : Option (Option Nat) → QueueEntry
  | none => e
  | some b => { e with birthday := b }

def apply_updates (e : QueueEntry) (name? phone? : Option (List Char))
    (birthday? : Option (Option Nat)) : Except PyErr QueueEntry :=
  match apply_name e name? with
  | .error err => .error err
  | .ok e1 =>
    match apply_phone e1 phone? with
    | .error err => .error err
    | .ok e2 => .ok (apply_birthday e2 birthday?)

/-- `update_entry` (`app/main.py`), with `date.today()` passed as `today`. -/
def update_entry (entry_id : Nat) (name? phone? : Option (List Char))
    (birthday? : Option (Option Nat)) (today : Nat) (now : Timestamp) (s : Store) :
    Store × Except PyErr QueueEntry :=
  match s.entries.findIdx? (fun e => decide (e.id = entry_id)) with
  | none => (s, .error .entryNotFound)
  | some i =>
    match s.entries.get? i with
    | none => (s, .error .entryNotFound)
    | some e =>
      if e.service_date ≠ today then (s, .error .editWindowClosed)
      else if name?.isNone ∧ phone?.isNone ∧ birthday?.isNone then
        (s, .error .noFieldsToEdit)
      else
        match apply_updates e name? phone? birthday? with
        | .error err => (s, .error err)
        | .ok e' =>
          let s' : Store := { s with entries := s.entries.set i e' }
          (record_queue_snapshot e.service_date now s', .ok e')

/-- Second half of `call_next_number` (`app/main.py` lines 520-537): dispatch
the next waiting entry over the already-updated entry table `l1`, returning
the post-state, the newly activated entry (as returned, i.e. already `active`)
and the entry just marked `served`. -/
def call_next_step (d : Nat) (now : Timestamp) (s : Store) (l1 : List QueueEntry)
    (last_index : Nat) (served_entry : Option QueueEntry) :
    Store × Option QueueEntry × Option QueueEntry :=
  match get_next_waiting_entry d last_index l1 with
  | some (j, n) =>
    let n' := { n with status := Status.active }
    (record_queue_snapshot d now { s with entries := l1.set j n' }, some n', served_entry)
  | none =>
    (record_queue_snapshot d now { s with entries := l1 }, none, served_entry)

/-- `call_next_number` (`app/main.py`): serve the current active entry (if
any) and compute `last_index`, then dispatch via `call_next_step`.  The
waiting-entry query runs after the active entry was flushed as `served`,
exactly as the autoflushing session does. -/
def call_next_number (d : Nat) (now : Timestamp) (s : Store) :
    Store × Option QueueEntry × Option QueueEntry :=
  match get_active_entry d s.entries with
  | some (i, a) =>
    call_next_step d now s (s.entries.set i { a with status := Status.served })
      a.ticket_index (some { a with status := Status.served })
  | none =>
    match get_last_served_entry d s.entries with
    | some (_, m) => call_next_step d now s s.entries m.ticket_index none
    | none => call_next_step d now s s.entries 0 none

/-- `call_previous_number` (`app/main.py`). -/
def call_previous_number (d : Nat) (now : Timestamp) (s : Store) :
    Store × Except PyErr QueueEntry :=
  match get_last_served_entry d s.entries with
  | none => (s, .error .noPreviousEntry)
  | some (i, p) =>
    let l1 :=
      match get_active_entry d s.entries with
      | some (j, a) => s.entries.set j { a with status := Status.waiting }
      | none => s.entries
    let p' := { p with status := Status.active }
    (record_queue_snapshot d now { s with entries := l1.set i p' }, .ok p')

/-! ## Lemmas about the selection and counting primitives -/

theorem pickMin_none (p : QueueEntry → Prop) [DecidablePred p] :
    ∀ l : List QueueEntry, pickMin p l = none ↔ ∀ e ∈ l, ¬ p e
  | [] => by simp [pickMin]
  | a :: rest => by
    have ih := pickMin_none p rest
    simp only [pickMin]
    by_cases hp : p a
    · rw [if_pos hp]
      rcases hr : pickMin p rest with _ | ⟨j, b⟩
      · simpa using fun h => absurd hp h
      · constructor
        · intro h
          by_cases hle : a.ticket_index ≤ b.ticket_index <;> simp [hle] at h
        · intro hall
          exact absurd hp (hall a (List.mem_cons_self a rest))
    · rw [if_neg hp]
      rcases hr : pickMin p rest with _ | ⟨j, b⟩
      · simp only [List.mem_cons, true_iff]
        rintro x (rfl | hx)
        · exact hp
        · exact (ih.mp hr) x hx
      · constructor
        · intro h; cases h
        · intro hall
          have hnone : pickMin p rest = none :=
            ih.mpr fun x hx => hall x (List.mem_cons_of_mem _ hx)
          rw [hnone] at hr; cases hr

theorem pickMin_some (p : QueueEntry → Prop) [DecidablePred p] :
    ∀ (l : List QueueEntry) (i : Nat) (e : QueueEntry), pickMin p l = some (i, e) →
      l.get? i = some e ∧ p e ∧ ∀ e' ∈ l, p e' → e.ticket_index ≤ e'.ticket_index
  | [], i, e, h => by cases h
  | a :: rest, i, e, h => by
    simp only [pickMin] at h
    split at h
    · next hp =>
      split at h
      · next hr =>
        cases h
        refine ⟨rfl, hp, ?_⟩
        intro e' he' hpe'
        rcases List.mem_cons.mp he' with rfl | hx
        · exact Nat.le_refl _
        · exact absurd hpe' ((pickMin_none p rest).mp hr e' hx)
      · next j b hr =>
        have ihb := pickMin_some p rest j b hr
        split at h
        · next hle =>
          cases h
          refine ⟨rfl, hp, ?_⟩
          intro e' he' hpe'
          rcases List.mem_cons.mp he' with rfl | hx
          · exact Nat.le_refl _
          · exact Nat.le_trans hle (ihb.2.2 e' hx hpe')
        · next hle =>
          cases h
          refine ⟨by simpa using ihb.1, ihb.2.1, ?_⟩
          intro e' he' hpe'
          rcases List.mem_cons.mp he' with rfl | hx
          · exact Nat.le_of_lt (Nat.lt_of_not_le hle)
          · exact ihb.2.2 e' hx hpe'
    · next hp =>
      split at h
      · next hr => cases h
      · next j b hr =>
        have ihb := pickMin_some p rest j b hr
        cases h
        refine ⟨by simpa using ihb.1, ihb.2.1, ?_⟩
        intro e' he' hpe'
        rcases List.mem_cons.mp he' with rfl | hx
        · exact absurd hpe' hp
        · exact ihb.2.2 e' hx hpe'

theorem pickMin_isSome (p : QueueEntry → Prop) [DecidablePred p] (l : List QueueEntry)
    (e : QueueEntry) (he : e ∈ l) (hp : p e) : (pickMin p l).isSome := by
  rcases h : pickMin p l with _ | r
  · exact absurd hp ((pickMin_none p l).mp h e he)
  · rfl

theorem pickMax_none (p : QueueEntry → Prop) [DecidablePred p] :
    ∀ l : List QueueEntry, pickMax p l = none ↔ ∀ e ∈ l, ¬ p e
  | [] => by simp [pickMax]
  | a :: rest => by
    have ih := pickMax_none p rest
    simp only [pickMax]
    by_cases hp : p a
    · rw [if_pos hp]
      rcases hr : pickMax p rest with _ | ⟨j, b⟩
      · simpa using fun h => absurd hp h
      · constructor
        · intro h
          by_cases hle : b.ticket_index ≤ a.ticket_index <;> simp [hle] at h
        · intro hall
          exact absurd hp (hall a (List.mem_cons_self a rest))
    · rw [if_neg hp]
      rcases hr : pickMax p rest with _ | ⟨j, b⟩
      · simp only [List.mem_cons, true_iff]
        rintro x (rfl | hx)
        · exact hp
        · exact (ih.mp hr) x hx
      · constructor
        · intro h; cases h
        · intro hall
          have hnone : pickMax p rest = none :=
            ih.mpr fun x hx => hall x (List.mem_cons_of_mem _ hx)
          rw [hnone] at hr; cases hr

theorem pickMax_some (p : QueueEntry → Prop) [DecidablePred p] :
    ∀ (l : List QueueEntry) (i : Nat) (e : QueueEntry), pickMax p l = some (i, e) →
      l.get? i = some e ∧ p e ∧ ∀ e' ∈ l, p e' → e'.ticket_index ≤ e.ticket_index
  | [], i, e, h => by cases h
  | a :: rest, i, e, h => by
    simp only [pickMax] at h
    split at h
    · next hp =>
      split at h
      · next hr =>
        cases h
        refine ⟨rfl, hp, ?_⟩
        intro e' he' hpe'
        rcases List.mem_cons.mp he' with rfl | hx
        · exact Nat.le_refl _
        · exact absurd hpe' ((pickMax_none p rest).mp hr e' hx)
      · next j b hr =>
        have ihb := pickMax_some p rest j b hr
        split at h
        · next hle =>
          cases h
          refine ⟨rfl, hp, ?_⟩
          intro e' he' hpe'
          rcases List.mem_cons.mp he' with rfl | hx
          · exact Nat.le_refl _
          · exact Nat.le_trans (ihb.2.2 e' hx hpe') hle
        · next hle =>
          cases h
          refine ⟨by simpa using ihb.1, ihb.2.1, ?_⟩
          intro e' he' hpe'
          rcases List.mem_cons.mp he' with rfl | hx
          · exact Nat.le_of_lt (Nat.lt_of_not_le hle)
          · exact ihb.2.2 e' hx hpe'
    · next hp =>
      split at h
      · next hr => cases h
      · next j b hr =>
        have ihb := pickMax_some p rest j b hr
        cases h
        refine ⟨by simpa using ihb.1, ihb.2.1, ?_⟩
        intro e' he' hpe'
        rcases List.mem_cons.mp he' with rfl | hx
        · exact absurd hpe' hp
        · exact ihb.2.2 e' hx hpe'

theorem pickMax_isSome (p : QueueEntry → Prop) [DecidablePred p] (l : List QueueEntry)
    (e : QueueEntry) (he : e ∈ l) (hp : p e) : (pickMax p l).isSome := by
  rcases h : pickMax p l with _ | r
  · exact absurd hp ((pickMax_none p l).mp h e he)
  · rfl

theorem countP_set (p : QueueEntry → Bool) :
    ∀ (l : List QueueEntry) (i : Nat) (e e' : QueueEntry), l.get? i = some e →
      (l.set i e').countP p + (if p e then 1 else 0) = l.countP p + (if p e' then 1 else 0)
  | [], i, e, e', h => by cases h
  | a :: rest, 0, e, e', h => by
    obtain rfl : a = e := by simpa using h
    simp only [List.set_cons_zero, List.countP_cons]
    omega
  | a :: rest, i + 1, e, e', h => by
    have ih := countP_set p rest i e e' (by simpa using h)
    simp only [List.set_cons_succ, List.countP_cons]
    omega

theorem get?_set_self (l : List QueueEntry) (i : Nat) (e e' : QueueEntry)
    (h : l.get? i = some e) : (l.set i e').get? i = some e' := by
  have hlt : i < l.length := by
    by_contra hge
    rw [List.get?_eq_none.mpr (Nat.le_of_not_lt hge)] at h
    cases h
  rw [List.get?_eq_getElem?, List.getElem?_set_self (by simpa using hlt)]

theorem get?_set_ne' (l : List QueueEntry) (i j : Nat) (e' : QueueEntry) (h : i ≠ j) :
    (l.set i e').get? j = l.get? j := by
  rw [List.get?_eq_getElem?, List.get?_eq_getElem?, List.getElem?_set_ne h]

/-- Membership among entries of a given status is unchanged by overwriting a
row whose old and new value both carry a different status. -/
theorem mem_set_status (l : List QueueEntry) (i : Nat) (a a' e : QueueEntry)
    (h : l.get? i = some a) (ha : a.status ≠ e.status) (ha' : a'.status ≠ e.status) :
    e ∈ l.set i a' ↔ e ∈ l := by
  constructor
  · intro hm
    rcases List.mem_or_eq_of_mem_set hm with hm | rfl
    · exact hm
    · exact absurd rfl ha'
  · intro hm
    obtain ⟨k, hk⟩ := List.mem_iff_get?.mp hm
    by_cases hik : i = k
    · subst hik
      rw [h] at hk
      cases hk
      exact absurd rfl ha
    · exact List.mem_iff_get?.mpr ⟨k, by rw [get?_set_ne' l i k a' hik]; exact hk⟩

/-! ## Facts about the phone normaliser -/

theorem translateChar_of_digit (c : Char) (hd : c.isDigit = true) : translateChar c = c := by
  have ne : ∀ d : Char, d.isDigit = false → c ≠ d := by
    intro d hdf he
    rw [he] at hd; rw [hd] at hdf; cases hdf
  simp [translateChar, ne '۰' (by decide), ne '۱' (by decide), ne '۲' (by decide),
        ne '۳' (by decide), ne '۴' (by decide), ne '۵' (by decide), ne '۶' (by decide),
        ne '۷' (by decide), ne '۸' (by decide), ne '۹' (by decide), ne '٠' (by decide),
        ne '١' (by decide), ne '٢' (by decide), ne '٣' (by decide), ne '٤' (by decide),
        ne '٥' (by decide), ne '٦' (by decide), ne '٧' (by decide), ne '٨' (by decide),
        ne '٩' (by decide)]

theorem isStripChar_of_digit (c : Char) (hd : c.isDigit = true) : isStripChar c = false := by
  have ne : ∀ d : Char, d.isDigit = false → c ≠ d := by
    intro d hdf he
    rw [he] at hd; rw [hd] at hdf; cases hdf
  simp [isStripChar, isPySpace, ne ' ' (by decide), ne '\t' (by decide), ne '\n' (by decide),
        ne '\x0d' (by decide), ne '\x0b' (by decide), ne '\x0c' (by decide),
        ne '-' (by decide), ne '(' (by decide), ne ')' (by decide)]

/-- Every successful result of `normalize_phone` is `+98` followed by a
10-digit local part starting with `9`. -/
theorem normalize_phone_ok_shape (x y : List Char) (h : normalize_phone x = .ok y) :
    ∃ lp, y = '+' :: '9' :: '8' :: lp ∧ lp.length = 10 ∧ lp.all Char.isDigit = true ∧
      startsWith lp ['9'] = true := by
  unfold normalize_phone at h
  dsimp only at h
  split at h
  · cases h
  · split at h
    · cases h
    · split at h
      · next hc =>
        cases h
        exact ⟨_, rfl, hc.1, hc.2.1, hc.2.2⟩
      · cases h

/-- C9: `normalize_phone` is idempotent on accepted inputs: if it succeeds on
`x` with result `y`, then it succeeds on `y` and returns `y` again. -/
theorem normalize_phone_idempotent (x y : List Char) (h : normalize_phone x = .ok y) :
    normalize_phone y = .ok y := by
  obtain ⟨lp, rfl, hlen, hdig, h9⟩ := normalize_phone_ok_shape x y h
  have hdig' : ∀ c ∈ lp, c.isDigit = true := fun c hc => by
    exact List.all_eq_true.mp hdig c hc
  have hmap : normalize_digits ('+' :: '9' :: '8' :: lp) = '+' :: '9' :: '8' :: lp := by
    simp only [normalize_digits, List.map_cons]
    rw [show translateChar '+' = '+' by decide, show translateChar '9' = '9' by decide,
        show translateChar '8' = '8' by decide]
    have hlp : lp.map translateChar = lp := by
      conv_rhs => rw [← List.map_id lp]
      exact List.map_congr_left fun a ha => translateChar_of_digit a (hdig' a ha)
    rw [hlp]
  have hfil : ('+' :: '9' :: '8' :: lp).filter (fun c => !isStripChar c) =
      '+' :: '9' :: '8' :: lp := by
    apply List.filter_eq_self.mpr
    intro a ha
    rcases List.mem_cons.mp ha with rfl | ha
    · decide
    rcases List.mem_cons.mp ha with rfl | ha
    · decide
    rcases List.mem_cons.mp ha with rfl | ha
    · decide
    simp [isStripChar_of_digit a (hdig' a ha)]
  have hclean : cleanedPhone ('+' :: '9' :: '8' :: lp) = '+' :: '9' :: '8' :: lp := by
    rw [cleanedPhone, hmap, hfil]
  unfold normalize_phone
  rw [hclean]
  simp [startsWith, hlen, hdig, h9]

/-- C9 witness: a concrete accepted input and the idempotence conclusion. -/
theorem normalize_phone_idempotent_witness :
    normalize_phone ['0','9','1','2','3','4','5','6','7','8','9'] =
      .ok ['+','9','8','9','1','2','3','4','5','6','7','8','9'] ∧
    normalize_phone ['+','9','8','9','1','2','3','4','5','6','7','8','9'] =
      .ok ['+','9','8','9','1','2','3','4','5','6','7','8','9'] :=
  ⟨by decide, normalize_phone_idempotent ['0','9','1','2','3','4','5','6','7','8','9'] _ (by decide)⟩

/-- C4 counterexample: `"9876543210"` cleans to exactly 10 ASCII digits
beginning with `'9'`, yet `normalize_phone` rejects it (the `"98"` country-code
branch fires first and the remaining 8 digits are not a valid local part). -/
theorem normalize_phone_bare_98_rejected :
    (cleanedPhone ['9','8','7','6','5','4','3','2','1','0']).length = 10 ∧
    (cleanedPhone ['9','8','7','6','5','4','3','2','1','0']).all Char.isDigit = true ∧
    (cleanedPhone ['9','8','7','6','5','4','3','2','1','0']).get? 0 = some '9' ∧
    normalize_phone ['9','8','7','6','5','4','3','2','1','0'] = .error PyErr.invalidPhone := by
  decide

/-- C4 (amended): if the cleaned form of the input is exactly 10 ASCII digits
beginning with `'9'` and whose second digit is not `'8'`, then
`normalize_phone` succeeds and returns `+98` followed by those digits.
(Cleaned forms starting `"98"` are instead treated as country-code prefixed
and rejected, as the counterexample shows.) -/
theorem normalize_phone_bare_local (x : List Char)
    (hlen : (cleanedPhone x).length = 10)
    (hdig : (cleanedPhone x).all Char.isDigit = true)
    (h0 : (cleanedPhone x).get? 0 = some '9')
    (h1 : (cleanedPhone x).get? 1 ≠ some '8') :
    normalize_phone x = .ok ('+' :: '9' :: '8' :: cleanedPhone x) := by
  unfold normalize_phone
  rcases hL : cleanedPhone x with _ | ⟨a, L1⟩
  · rw [hL] at hlen; simp at hlen
  rcases L1 with _ | ⟨b, rest⟩
  · rw [hL] at hlen; simp at hlen
  rw [hL] at hlen hdig h0 h1
  obtain rfl : a = '9' := by simpa using h0
  have hb : b ≠ '8' := fun he => h1 (by simp [he])
  have hb' : ('8' == b) = false := by
    rcases hbeq : ('8' == b) with _ | _
    · rfl
    · exact absurd (beq_iff_eq.mp hbeq).symm hb
  simp [startsWith, hlen, hdig, hb']

/-- C4 witness: the amended theorem applied to the concrete input
`"9123456789"`. -/
theorem normalize_phone_bare_local_witness :
    (cleanedPhone ['9','1','2','3','4','5','6','7','8','9']).length = 10 ∧
    (cleanedPhone ['9','1','2','3','4','5','6','7','8','9']).all Char.isDigit = true ∧
    (cleanedPhone ['9','1','2','3','4','5','6','7','8','9']).get? 0 = some '9' ∧
    (cleanedPhone ['9','1','2','3','4','5','6','7','8','9']).get? 1 ≠ some '8' ∧
    normalize_phone ['9','1','2','3','4','5','6','7','8','9'] =
      .ok ('+' :: '9' :: '8' :: cleanedPhone ['9','1','2','3','4','5','6','7','8','9']) :=
  ⟨by decide, by decide, by decide, by decide,
   normalize_phone_bare_local ['9','1','2','3','4','5','6','7','8','9']
     (by decide) (by decide) (by decide) (by decide)⟩

/-- C10: an input with no `+`/`00` prefix whose cleaned form is the country
code `98` followed by a 10-digit local number beginning with `9` is accepted,
returning `+98` plus the last 10 digits. -/
theorem normalize_phone_bare_country_code (x lp : List Char)
    (hL : cleanedPhone x = '9' :: '8' :: lp)
    (hlen : lp.length = 10) (hdig : lp.all Char.isDigit = true)
    (h9 : startsWith lp ['9'] = true) :
    normalize_phone x = .ok ('+' :: '9' :: '8' :: lp) := by
  unfold normalize_phone
  rw [hL]
  simp [startsWith, hlen, hdig, h9]

/-- C10 witness: the concrete input `"989123456789"`. -/
theorem normalize_phone_bare_country_code_witness :
    cleanedPhone ['9','8','9','1','2','3','4','5','6','7','8','9'] =
      '9' :: '8' :: ['9','1','2','3','4','5','6','7','8','9'] ∧
    (['9','1','2','3','4','5','6','7','8','9'] : List Char).length = 10 ∧
    (['9','1','2','3','4','5','6','7','8','9'] : List Char).all Char.isDigit = true ∧
    startsWith ['9','1','2','3','4','5','6','7','8','9'] ['9'] = true ∧
    normalize_phone ['9','8','9','1','2','3','4','5','6','7','8','9'] =
      .ok ('+' :: '9' :: '8' :: ['9','1','2','3','4','5','6','7','8','9']) :=
  ⟨by decide, by decide, by decide, by decide,
   normalize_phone_bare_country_code ['9','8','9','1','2','3','4','5','6','7','8','9']
     ['9','1','2','3','4','5','6','7','8','9'] (by decide) (by decide) (by decide) (by decide)⟩

/-! ## Snapshot upsert lemmas (C8) -/

theorem countP_upsert (d : Nat) (w : Timestamp) (pend wait serv : Nat) (now : Timestamp) :
    ∀ l : List QueueLoadSnapshot,
      l.countP (fun r => decide (r.service_date = d ∧ r.window_start = w)) ≤ 1 →
      (upsertSnapshot d w pend wait serv now l).countP
        (fun r => decide (r.service_date = d ∧ r.window_start = w)) = 1
  | [], _ => by simp [upsertSnapshot]
  | r :: rest, h => by
    rw [List.countP_cons] at h
    simp only [upsertSnapshot]
    split
    · next hk =>
      rw [if_pos (decide_eq_true hk)] at h
      have hrest : rest.countP (fun r => decide (r.service_date = d ∧ r.window_start = w)) = 0 := by
        omega
      rw [List.countP_cons, hrest]
      simp [hk.1, hk.2]
    · next hk =>
      rw [if_neg (by simpa using hk)] at h
      rw [List.countP_cons,
          countP_upsert d w pend wait serv now rest (by omega)]
      simp [hk]

theorem upsert_mem (d : Nat) (w : Timestamp) (pend wait serv : Nat) (now : Timestamp) :
    ∀ l : List QueueLoadSnapshot,
      (⟨d, w, pend, wait, serv, now⟩ : QueueLoadSnapshot) ∈ upsertSnapshot d w pend wait serv now l
  | [] => by simp [upsertSnapshot]
  | r :: rest => by
    simp only [upsertSnapshot]
    split
    · next hk =>
      obtain ⟨h1, h2⟩ := hk
      cases r
      subst h1
      subst h2
      exact List.mem_cons_self _ _
    · next =>
      exact List.mem_cons_of_mem _ (upsert_mem d w pend wait serv now rest)

/-- C8: `record_queue_snapshot` keys the snapshot by the service date and the
current time with the minute rounded down to a multiple of 30 and
seconds/microseconds zeroed; recording twice within the same window (with the
entry table mutated arbitrarily in between) leaves exactly one row for that
`(date, window)`, and that row carries the counts and capture time of the
later recording. -/
theorem record_snapshot_same_window (s : Store) (d : Nat) (t1 t2 : Timestamp)
    (newEntries : List QueueEntry)
    (hw : truncate_to_window t1 = truncate_to_window t2)
    (hone : s.snapshots.countP
        (fun r => decide (r.service_date = d ∧ r.window_start = truncate_to_window t2)) ≤ 1) :
    (record_queue_snapshot d t2
        { record_queue_snapshot d t1 s with entries := newEntries }).snapshots.countP
      (fun r => decide (r.service_date = d ∧ r.window_start = truncate_to_window t2)) = 1 ∧
    (⟨d, truncate_to_window t2,
       (summarize_counts (newEntries.filter (fun e => decide (e.service_date = d)))).2.2,
       (summarize_counts (newEntries.filter (fun e => decide (e.service_date = d)))).1,
       (summarize_counts (newEntries.filter (fun e => decide (e.service_date = d)))).2.1,
       t2⟩ : QueueLoadSnapshot) ∈
      (record_queue_snapshot d t2
        { record_queue_snapshot d t1 s with entries := newEntries }).snapshots ∧
    (truncate_to_window t2).minute = t2.minute / 30 * 30 ∧
    (truncate_to_window t2).second = 0 ∧ (truncate_to_window t2).microsecond = 0 := by
  refine ⟨?_, ?_, rfl, rfl, rfl⟩
  · show (upsertSnapshot d (truncate_to_window t2) _ _ _ t2
        (upsertSnapshot d (truncate_to_window t1) _ _ _ t1 s.snapshots)).countP _ = 1
    rw [hw]
    exact countP_upsert d (truncate_to_window t2) _ _ _ t2 _
      (Nat.le_of_eq (countP_upsert d (truncate_to_window t2) _ _ _ t1 s.snapshots hone))
  · exact upsert_mem d (truncate_to_window t2) _ _ _ t2 _

/-- C8 witness: two recordings at 10:05 and 10:20 of the same day fall in the
same 30-minute window. -/
theorem record_snapshot_same_window_witness :
    truncate_to_window ⟨0,10,5,7,9⟩ = truncate_to_window ⟨0,10,20,3,4⟩ ∧
    emptyStore.snapshots.countP
      (fun r => decide (r.service_date = 0 ∧ r.window_start = truncate_to_window ⟨0,10,20,3,4⟩)) ≤ 1 ∧
    ((record_queue_snapshot 0 ⟨0,10,20,3,4⟩
        { record_queue_snapshot 0 ⟨0,10,5,7,9⟩ emptyStore with entries := [] }).snapshots.countP
      (fun r => decide (r.service_date = 0 ∧ r.window_start = truncate_to_window ⟨0,10,20,3,4⟩)) = 1 ∧
    (⟨0, truncate_to_window ⟨0,10,20,3,4⟩,
       (summarize_counts (List.filter (fun e => decide (e.service_date = 0)) [])).2.2,
       (summarize_counts (List.filter (fun e => decide (e.service_date = 0)) [])).1,
       (summarize_counts (List.filter (fun e => decide (e.service_date = 0)) [])).2.1,
       ⟨0,10,20,3,4⟩⟩ : QueueLoadSnapshot) ∈
      (record_queue_snapshot 0 ⟨0,10,20,3,4⟩
        { record_queue_snapshot 0 ⟨0,10,5,7,9⟩ emptyStore with entries := [] }).snapshots ∧
    (truncate_to_window ⟨0,10,20,3,4⟩).minute = 20 / 30 * 30 ∧
    (truncate_to_window ⟨0,10,20,3,4⟩).second = 0 ∧
    (truncate_to_window ⟨0,10,20,3,4⟩).microsecond = 0) :=
  ⟨by decide, by decide,
   record_snapshot_same_window emptyStore 0 ⟨0,10,5,7,9⟩ ⟨0,10,20,3,4⟩ []
     (by decide) (by decide)⟩

/-! ## Day registry (C7) -/

/-- C7: `start_day` fails with `DayAlreadyStarted` when the day exists and
`overwrite` is false; fails with `DayActiveCannotReset` when the day exists,
`overwrite` is true and entries exist for the date; and when the day exists,
`overwrite` is true and no entry exists, the `ServiceDay` row is deleted and
recreated (stamped `now`) with the entry table untouched.  Both failures leave
the store unchanged. -/
theorem start_day_cases (s : Store) (d : Nat) (overwrite : Bool) (now : Timestamp) :
    ((∃ q ∈ s.days, q.service_date = d) → overwrite = false →
      start_day d overwrite now s = (s, .error .dayAlreadyStarted)) ∧
    ((∃ q ∈ s.days, q.service_date = d) → overwrite = true →
      (∃ e ∈ s.entries, e.service_date = d) →
      start_day d overwrite now s = (s, .error .dayActiveCannotReset)) ∧
    ((∃ q ∈ s.days, q.service_date = d) → overwrite = true →
      (∀ e ∈ s.entries, e.service_date ≠ d) →
      (start_day d overwrite now s).1.days =
        s.days.eraseP (fun q => decide (q.service_date = d)) ++ [⟨d, now⟩] ∧
      (start_day d overwrite now s).1.entries = s.entries ∧
      (start_day d overwrite now s).2 = .ok ⟨d, now⟩) := by
  have hfind : ∀ (hex : ∃ q ∈ s.days, q.service_date = d),
      ∃ day, s.days.find? (fun q => decide (q.service_date = d)) = some day := by
    intro hex
    obtain ⟨q, hq, hqd⟩ := hex
    have hs : (s.days.find? (fun q => decide (q.service_date = d))).isSome :=
      List.find?_isSome.mpr ⟨q, hq, by simpa using hqd⟩
    rcases hf : s.days.find? (fun q => decide (q.service_date = d)) with _ | day
    · rw [hf] at hs; cases hs
    · exact ⟨day, hf⟩
  refine ⟨?_, ?_, ?_⟩
  · intro hex hov
    obtain ⟨day, hf⟩ := hfind hex
    subst hov
    simp [start_day, hf]
  · intro hex hov hent
    obtain ⟨day, hf⟩ := hfind hex
    obtain ⟨e, he, hed⟩ := hent
    have hany : s.entries.any (fun e => decide (e.service_date = d)) = true :=
      List.any_eq_true.mpr ⟨e, he, by simpa using hed⟩
    subst hov
    simp [start_day, hf, hany]
  · intro hex hov hnone
    obtain ⟨day, hf⟩ := hfind hex
    have hany : s.entries.any (fun e => decide (e.service_date = d)) = false := by
      rw [List.any_eq_false]
      intro e he
      simpa using hnone e he
    have hfil : s.entries.filter (fun e => !decide (e.service_date = d)) = s.entries := by
      apply List.filter_eq_self.mpr
      intro e he
      simpa using hnone e he
    subst hov
    refine ⟨?_, ?_, ?_⟩ <;> simp [start_day, hf, hany, record_queue_snapshot, hfil]

/-- C7 witness: a store holding one open day with no entries is reset by
`overwrite = true`. -/
theorem start_day_cases_witness :
    (∃ q ∈ ({ emptyStore with days := [⟨0, ⟨0,0,0,0,0⟩⟩] } : Store).days,
       q.service_date = 0) ∧
    (true : Bool) = true ∧
    (∀ e ∈ ({ emptyStore with days := [⟨0, ⟨0,0,0,0,0⟩⟩] } : Store).entries,
       e.service_date ≠ 0) ∧
    ((start_day 0 true ⟨0,0,1,0,0⟩ { emptyStore with days := [⟨0, ⟨0,0,0,0,0⟩⟩] }).1.days =
        ({ emptyStore with days := [⟨0, ⟨0,0,0,0,0⟩⟩] } : Store).days.eraseP
          (fun q => decide (q.service_date = 0)) ++ [⟨0, ⟨0,0,1,0,0⟩⟩] ∧
      (start_day 0 true ⟨0,0,1,0,0⟩ { emptyStore with days := [⟨0, ⟨0,0,0,0,0⟩⟩] }).1.entries =
        ({ emptyStore with days := [⟨0, ⟨0,0,0,0,0⟩⟩] } : Store).entries ∧
      (start_day 0 true ⟨0,0,1,0,0⟩ { emptyStore with days := [⟨0, ⟨0,0,0,0,0⟩⟩] }).2 =
        .ok ⟨0, ⟨0,0,1,0,0⟩⟩) :=
  ⟨by decide, rfl, by decide,
   (start_day_cases { emptyStore with days := [⟨0, ⟨0,0,0,0,0⟩⟩] } 0 true ⟨0,0,1,0,0⟩).2.2
     (by decide) rfl (by decide)⟩

/-! ## Ticket sequencer (C6) -/

/-- The `SELECT max(ticket_index) WHERE service_date = d` of `create_entry`. -/
def maxIndex? (d : Nat) (s : Store) : Option Nat :=
  ((s.entries.filter (fun e => decide (e.service_date = d))).map
    (fun e => e.ticket_index)).max?

/-- C6: with valid name and phone, `create_entry` assigns ticket index
`max + 1` (`1` when the date has no entries), fails with `QueueFull` exactly
when that index exceeds 999 (leaving the entry table unchanged), and on
success appends one `waiting` entry whose display code is the index
zero-padded to three digits. -/
theorem create_entry_index (s : Store) (d : Nat) (name0 phone0 : List Char)
    (birthday : Option Nat) (now : Timestamp)
    (hname : (pyStrip name0).isEmpty = false)
    (hphone : (pyStrip phone0).isEmpty = false)
    (hnorm : (normalize_phone (pyStrip phone0)).isOk = true) :
    ((∀ e ∈ s.entries, e.service_date ≠ d) → (maxIndex? d s).getD 0 + 1 = 1) ∧
    (∀ k, maxIndex? d s = some k → (maxIndex? d s).getD 0 + 1 = k + 1) ∧
    ((maxIndex? d s).getD 0 + 1 > 999 →
      (create_entry d name0 phone0 birthday now s).2 = .error .queueFull ∧
      (create_entry d name0 phone0 birthday now s).1.entries = s.entries) ∧
    ((maxIndex? d s).getD 0 + 1 ≤ 999 →
      ∃ en, (create_entry d name0 phone0 birthday now s).2 = .ok en ∧
        en.ticket_index = (maxIndex? d s).getD 0 + 1 ∧
        en.ticket_number = pad3 ((maxIndex? d s).getD 0 + 1) ∧
        en.status = Status.waiting ∧
        (create_entry d name0 phone0 birthday now s).1.entries = s.entries ++ [en]) := by
  rcases hok : normalize_phone (pyStrip phone0) with err | np
  · rw [hok] at hnorm; cases hnorm
  refine ⟨?_, ?_, ?_, ?_⟩
  · intro hnone
    have hfil : s.entries.filter (fun e => decide (e.service_date = d)) = [] := by
      rw [List.filter_eq_nil_iff]
      intro e he
      simpa using hnone e he
    simp [maxIndex?, hfil]
  · intro k hk
    rw [hk]
    rfl
  · intro hbig
    have h999 : ¬ (maxIndex? d s).getD 0 + 1 ≤ 999 := by omega
    constructor <;>
      simp [create_entry, hname, hphone, hok, maxIndex?, Nat.lt_irrefl, h999] <;>
      split <;> simp_all [maxIndex?]
  · intro hsmall
    have h999 : ¬ ((((s.entries.filter (fun e => decide (e.service_date = d))).map
        (fun e => e.ticket_index)).max?.getD 0 + 1) > 999) := by
      have h := hsmall
      simp only [maxIndex?] at h
      omega
    cases hday : s.days.any (fun q => decide (q.service_date = d)) <;>
      exact ⟨⟨s.nextId, d, (maxIndex? d s).getD 0 + 1, pad3 ((maxIndex? d s).getD 0 + 1),
          pyStrip name0, np, birthday, Status.waiting⟩,
        by simp [create_entry, hname, hphone, hok, hday, h999, maxIndex?],
        rfl, rfl, rfl,
        by simp [create_entry, hname, hphone, hok, hday, h999, maxIndex?,
                 record_queue_snapshot]⟩

/-- C6 witness: with a ticket 998 already issued, the next issuance gets index
999 and display code `"999"` (and `999 ≤ 999`, so it is not rejected). -/
theorem create_entry_index_witness :
    (pyStrip ['A']).isEmpty = false ∧
    (pyStrip ['0','9','1','2','3','4','5','6','7','8','9']).isEmpty = false ∧
    (normalize_phone (pyStrip ['0','9','1','2','3','4','5','6','7','8','9'])).isOk = true ∧
    (maxIndex? 0 { emptyStore with
        entries := [⟨0, 0, 998, pad3 998, ['a'], ['p'], none, Status.waiting⟩] }).getD 0 + 1 ≤ 999 ∧
    pad3 ((maxIndex? 0 { emptyStore with
        entries := [⟨0, 0, 998, pad3 998, ['a'], ['p'], none, Status.waiting⟩] }).getD 0 + 1) =
      ['9','9','9'] ∧
    (∃ en, (create_entry 0 ['A'] ['0','9','1','2','3','4','5','6','7','8','9'] none ⟨0,0,0,0,0⟩
        { emptyStore with
          entries := [⟨0, 0, 998, pad3 998, ['a'], ['p'], none, Status.waiting⟩] }).2 = .ok en ∧
      en.ticket_index = (maxIndex? 0 { emptyStore with
        entries := [⟨0, 0, 998, pad3 998, ['a'], ['p'], none, Status.waiting⟩] }).getD 0 + 1 ∧
      en.ticket_number = pad3 ((maxIndex? 0 { emptyStore with
        entries := [⟨0, 0, 998, pad3 998, ['a'], ['p'], none, Status.waiting⟩] }).getD 0 + 1) ∧
      en.status = Status.waiting ∧
      (create_entry 0 ['A'] ['0','9','1','2','3','4','5','6','7','8','9'] none ⟨0,0,0,0,0⟩
        { emptyStore with
          entries := [⟨0, 0, 998, pad3 998, ['a'], ['p'], none, Status.waiting⟩] }).1.entries =
        ({ emptyStore with
          entries := [⟨0, 0, 998, pad3 998, ['a'], ['p'], none, Status.waiting⟩] } : Store).entries
          ++ [en]) :=
  ⟨by decide, by decide, by decide, by decide, by decide,
   (create_entry_index { emptyStore with
        entries := [⟨0, 0, 998, pad3 998, ['a'], ['p'], none, Status.waiting⟩] } 0
      ['A'] ['0','9','1','2','3','4','5','6','7','8','9'] none ⟨0,0,0,0,0⟩
      (by decide) (by decide) (by decide)).2.2.2 (by decide)⟩

/-! ## Error atomicity (C3) -/

/-- C3 counterexample: issuing with an empty name on a fresh date fails, yet
the store after the failed call differs from the store before it — the
implicitly created `ServiceDay` was already committed. -/
theorem create_entry_commits_day_on_error :
    (create_entry 0 [] ['1'] none ⟨0,0,0,0,0⟩ emptyStore).2 =
      .error PyErr.nameAndPhoneRequired ∧
    (create_entry 0 [] ['1'] none ⟨0,0,0,0,0⟩ emptyStore).1 ≠ emptyStore ∧
    (create_entry 0 [] ['1'] none ⟨0,0,0,0,0⟩ emptyStore).1.days = [⟨0, ⟨0,0,0,0,0⟩⟩] := by
  decide

/-- C3 (amended): every operation leaves the store unchanged when it fails,
except `create_entry`: a failing `create_entry` leaves the entry table, the
snapshot table and the id counter unchanged, but keeps the implicitly created
`ServiceDay` row committed when the date had none.  (`call_next_number` has no
failure path at all.) -/
theorem error_atomicity (s : Store) :
    (∀ d ow now e, (start_day d ow now s).2 = .error e → (start_day d ow now s).1 = s) ∧
    (∀ eid n? p? b? today now e, (update_entry eid n? p? b? today now s).2 = .error e →
      (update_entry eid n? p? b? today now s).1 = s) ∧
    (∀ d now e, (call_previous_number d now s).2 = .error e →
      (call_previous_number d now s).1 = s) ∧
    (∀ d n p b now e, (create_entry d n p b now s).2 = .error e →
      (create_entry d n p b now s).1.entries = s.entries ∧
      (create_entry d n p b now s).1.snapshots = s.snapshots ∧
      (create_entry d n p b now s).1.nextId = s.nextId ∧
      (create_entry d n p b now s).1.days =
        (if s.days.any (fun q => decide (q.service_date = d)) = true then s.days
         else s.days ++ [⟨d, now⟩])) := by
  refine ⟨?_, ?_, ?_, ?_⟩
  · intro d ow now e
    unfold start_day
    dsimp only
    repeat' split
    all_goals intro h
    all_goals first
      | rfl
      | simp at h
  · intro eid n? p? b? today now e
    unfold update_entry
    dsimp only
    repeat' split
    all_goals intro h
    all_goals first
      | rfl
      | simp at h
  · intro d now e
    unfold call_previous_number
    dsimp only
    repeat' split
    all_goals intro h
    all_goals first
      | rfl
      | simp at h
  · intro d n p b now e
    unfold create_entry
    dsimp only
    repeat' split
    all_goals intro h
    all_goals first
      | exact ⟨rfl, rfl, rfl, rfl⟩
      | simp at h

/-- C3 witness: the amended atomicity statement for a concrete failing
`create_entry` call on the empty store. -/
theorem error_atomicity_witness :
    (create_entry 0 [] ['1'] none ⟨0,0,0,0,0⟩ emptyStore).2 =
      .error PyErr.nameAndPhoneRequired ∧
    ((create_entry 0 [] ['1'] none ⟨0,0,0,0,0⟩ emptyStore).1.entries = emptyStore.entries ∧
     (create_entry 0 [] ['1'] none ⟨0,0,0,0,0⟩ emptyStore).1.snapshots = emptyStore.snapshots ∧
     (create_entry 0 [] ['1'] none ⟨0,0,0,0,0⟩ emptyStore).1.nextId = emptyStore.nextId ∧
     (create_entry 0 [] ['1'] none ⟨0,0,0,0,0⟩ emptyStore).1.days =
       (if emptyStore.days.any (fun q => decide (q.service_date = 0)) = true then emptyStore.days
        else emptyStore.days ++ [⟨0, ⟨0,0,0,0,0⟩⟩])) :=
  ⟨by decide,
   (error_atomicity emptyStore).2.2.2 0 [] ['1'] none ⟨0,0,0,0,0⟩
     PyErr.nameAndPhoneRequired (by decide)⟩

/-! ## The at-most-one-active invariant (C2) -/

/-- Number of entries of date `d` holding status `st`. -/
def countStatus (st : Status) (d : Nat) (l : List QueueEntry) : Nat :=
  l.countP (fun e => decide (e.service_date = d ∧ e.status = st))

theorem get_next_waiting_some (d after : Nat) (l : List QueueEntry) (j : Nat) (n : QueueEntry)
    (h : get_next_waiting_entry d after l = some (j, n)) :
    l.get? j = some n ∧ n.service_date = d ∧ n.status = Status.waiting := by
  unfold get_next_waiting_entry at h
  split at h
  · next r hr =>
    cases h
    obtain ⟨hget, hp, -⟩ := pickMin_some _ l j n hr
    exact ⟨hget, hp.1, hp.2.1⟩
  · obtain ⟨hget, hp, -⟩ := pickMin_some _ l j n h
    exact ⟨hget, hp.1, hp.2⟩

theorem get_next_waiting_isSome (d after : Nat) (l : List QueueEntry) (w : QueueEntry)
    (hw : w ∈ l) (hd : w.service_date = d) (hst : w.status = Status.waiting) :
    (get_next_waiting_entry d after l).isSome := by
  unfold get_next_waiting_entry
  split
  · rfl
  · exact pickMin_isSome _ l w hw ⟨hd, hst⟩

theorem countP_pos_of_get? (p : QueueEntry → Bool) (l : List QueueEntry) (i : Nat)
    (e : QueueEntry) (h : l.get? i = some e) (hp : p e = true) : 1 ≤ l.countP p := by
  have := List.countP_pos_iff.mpr ⟨e, List.get?_mem h, hp⟩
  omega

theorem countStatus_set (st : Status) (d : Nat) :
    ∀ (l : List QueueEntry) (i : Nat) (e e' : QueueEntry), l.get? i = some e →
      countStatus st d (l.set i e') + (if e.service_date = d ∧ e.status = st then 1 else 0) =
        countStatus st d l + (if e'.service_date = d ∧ e'.status = st then 1 else 0)
  | [], i, e, e', h => by cases h
  | a :: rest, 0, e, e', h => by
    obtain rfl : a = e := by simpa using h
    simp only [List.set_cons_zero, countStatus, List.countP_cons, decide_eq_true_eq]
    omega
  | a :: rest, i + 1, e, e', h => by
    have ih := countStatus_set st d rest i e e' (by simpa using h)
    simp only [List.set_cons_succ, countStatus, List.countP_cons, decide_eq_true_eq] at ih ⊢
    omega

theorem countStatus_append (st : Status) (d : Nat) (l r : List QueueEntry) :
    countStatus st d (l ++ r) = countStatus st d l + countStatus st d r := by
  simp only [countStatus, List.countP_append]

theorem countStatus_eq_zero (st : Status) (d : Nat) (l : List QueueEntry)
    (h : ∀ e ∈ l, ¬(e.service_date = d ∧ e.status = st)) : countStatus st d l = 0 := by
  simp only [countStatus]
  rw [List.countP_eq_zero]
  intro a ha
  simpa using h a ha

theorem countStatus_pos (st : Status) (d : Nat) (l : List QueueEntry) (i : Nat)
    (e : QueueEntry) (h : l.get? i = some e) (hd : e.service_date = d) (hst : e.status = st) :
    1 ≤ countStatus st d l :=
  countP_pos_of_get? _ l i e h (by simp [hd, hst])

/-- Dispatching over `l1` can only raise the active count of date `d` by one,
and never touches other dates. -/
theorem call_next_step_count (d : Nat) (now : Timestamp) (s : Store) (l1 : List QueueEntry)
    (last_index : Nat) (se : Option QueueEntry) (d' : Nat) :
    countStatus Status.active d' (call_next_step d now s l1 last_index se).1.entries =
      countStatus Status.active d' l1 ∨
    (d' = d ∧
      countStatus Status.active d' (call_next_step d now s l1 last_index se).1.entries =
        countStatus Status.active d' l1 + 1) := by
  unfold call_next_step
  split
  · next j n hn =>
    obtain ⟨hget, hnd, hnst⟩ := get_next_waiting_some d last_index l1 j n hn
    have hcnt := countStatus_set Status.active d' l1 j n { n with status := Status.active } hget
    have hx : ¬(n.service_date = d' ∧ n.status = Status.active) := by simp [hnst]
    rw [if_neg hx] at hcnt
    by_cases hdd : d' = d
    · right
      refine ⟨hdd, ?_⟩
      have hy : ({ n with status := Status.active } : QueueEntry).service_date = d' ∧
          ({ n with status := Status.active } : QueueEntry).status = Status.active := by
        exact ⟨by rw [show ({ n with status := Status.active } : QueueEntry).service_date =
          n.service_date from rfl, hnd, hdd], rfl⟩
      rw [if_pos hy] at hcnt
      show countStatus Status.active d' (l1.set j { n with status := Status.active }) =
        countStatus Status.active d' l1 + 1
      omega
    · left
      have hy : ¬(({ n with status := Status.active } : QueueEntry).service_date = d' ∧
          ({ n with status := Status.active } : QueueEntry).status = Status.active) := by
        rintro ⟨h1, -⟩
        rw [show ({ n with status := Status.active } : QueueEntry).service_date =
          n.service_date from rfl, hnd] at h1
        exact hdd h1.symm
      rw [if_neg hy] at hcnt
      show countStatus Status.active d' (l1.set j { n with status := Status.active }) =
        countStatus Status.active d' l1
      omega
  · left; rfl

/-- A `create_entry` call leaves the entry table unchanged or appends one
`waiting` entry. -/
theorem create_entry_entries (d : Nat) (n p : List Char) (b : Option Nat) (now : Timestamp)
    (s : Store) :
    (create_entry d n p b now s).1.entries = s.entries ∨
    ∃ en : QueueEntry, en.status = Status.waiting ∧
      (create_entry d n p b now s).1.entries = s.entries ++ [en] := by
  unfold create_entry
  dsimp only
  repeat' split
  all_goals first
    | exact Or.inl rfl
    | exact Or.inr ⟨_, rfl, rfl⟩

/-- A successful `apply_updates` never changes the status or the service date
of the row. -/
theorem apply_name_fields (e : QueueEntry) (n? : Option (List Char)) (e1 : QueueEntry)
    (h : apply_name e n? = .ok e1) :
    e1.status = e.status ∧ e1.service_date = e.service_date := by
  unfold apply_name at h
  split at h
  · cases h; exact ⟨rfl, rfl⟩
  · dsimp only at h
    split at h
    · cases h
    · cases h; exact ⟨rfl, rfl⟩

theorem apply_phone_fields (e : QueueEntry) (p? : Option (List Char)) (e1 : QueueEntry)
    (h : apply_phone e p? = .ok e1) :
    e1.status = e.status ∧ e1.service_date = e.service_date := by
  unfold apply_phone at h
  split at h
  · cases h; exact ⟨rfl, rfl⟩
  · dsimp only at h
    split at h
    · cases h
    · split at h
      · cases h
      · cases h; exact ⟨rfl, rfl⟩

theorem apply_birthday_fields (e : QueueEntry) (b? : Option (Option Nat)) :
    (apply_birthday e b?).status = e.status ∧
    (apply_birthday e b?).service_date = e.service_date := by
  cases b? <;> exact ⟨rfl, rfl⟩

theorem apply_updates_fields (e : QueueEntry) (n? p? : Option (List Char))
    (b? : Option (Option Nat)) (e' : QueueEntry)
    (h : apply_updates e n? p? b? = .ok e') :
    e'.status = e.status ∧ e'.service_date = e.service_date := by
  unfold apply_updates at h
  split at h
  · cases h
  · next e1 h1 =>
    split at h
    · cases h
    · next e2 h2 =>
      cases h
      obtain ⟨hs1, hd1⟩ := apply_name_fields e n? e1 h1
      obtain ⟨hs2, hd2⟩ := apply_phone_fields e1 p? e2 h2
      obtain ⟨hs3, hd3⟩ := apply_birthday_fields e2 b?
      exact ⟨by rw [hs3, hs2, hs1], by rw [hd3, hd2, hd1]⟩

/-- An `update_entry` call leaves the entry table unchanged or overwrites one
row with the result of `apply_updates` on it. -/
theorem update_entry_entries (eid : Nat) (n? p? : Option (List Char))
    (b? : Option (Option Nat)) (today : Nat) (now : Timestamp) (s : Store) :
    (update_entry eid n? p? b? today now s).1.entries = s.entries ∨
    ∃ i e e', s.entries.get? i = some e ∧ apply_updates e n? p? b? = .ok e' ∧
      (update_entry eid n? p? b? today now s).1.entries = s.entries.set i e' := by
  unfold update_entry
  split
  · exact Or.inl rfl
  · next i hidx =>
    split
    · exact Or.inl rfl
    · next e hget =>
      split
      · exact Or.inl rfl
      · split
        · exact Or.inl rfl
        · split
          · exact Or.inl rfl
          · next e' happ =>
            exact Or.inr ⟨i, e, e', hget, happ, rfl⟩

theorem create_entry_preserves_active (d : Nat) (n p : List Char) (b : Option Nat)
    (now : Timestamp) (s : Store)
    (h : ∀ d', countStatus Status.active d' s.entries ≤ 1) :
    ∀ d', countStatus Status.active d' (create_entry d n p b now s).1.entries ≤ 1 := by
  intro d'
  rcases create_entry_entries d n p b now s with heq | ⟨en, hst, heq⟩
  · rw [heq]; exact h d'
  · rw [heq, countStatus_append]
    have hzero : countStatus Status.active d' [en] = 0 :=
      countStatus_eq_zero _ _ _ (by rintro e he ⟨-, hact⟩; simp at he; rw [he, hst] at hact; cases hact)
    rw [hzero]
    simpa using h d'

theorem update_entry_preserves_active (eid : Nat) (n? p? : Option (List Char))
    (b? : Option (Option Nat)) (today : Nat) (now : Timestamp) (s : Store)
    (h : ∀ d', countStatus Status.active d' s.entries ≤ 1) :
    ∀ d', countStatus Status.active d' (update_entry eid n? p? b? today now s).1.entries ≤ 1 := by
  intro d'
  rcases update_entry_entries eid n? p? b? today now s with heq | ⟨i, e, e', hget, happ, heq⟩
  · rw [heq]; exact h d'
  · rw [heq]
    obtain ⟨hs, hd⟩ := apply_updates_fields e n? p? b? e' happ
    have hcnt := countStatus_set Status.active d' s.entries i e e' hget
    have hsame : (if e'.service_date = d' ∧ e'.status = Status.active then 1 else 0) =
        (if e.service_date = d' ∧ e.status = Status.active then 1 else 0) := by
      rw [hs, hd]
    rw [hsame] at hcnt
    have := h d'
    omega

theorem call_next_preserves_active (d : Nat) (now : Timestamp) (s : Store)
    (h : ∀ d', countStatus Status.active d' s.entries ≤ 1) :
    ∀ d', countStatus Status.active d' (call_next_number d now s).1.entries ≤ 1 := by
  intro d'
  unfold call_next_number
  split
  · next i a ha =>
    obtain ⟨hget, hp, -⟩ := pickMin_some _ s.entries i a ha
    have hcnt := countStatus_set Status.active d' s.entries i a
      { a with status := Status.served } hget
    have hy : ¬(({ a with status := Status.served } : QueueEntry).service_date = d' ∧
        ({ a with status := Status.served } : QueueEntry).status = Status.active) := by
      rintro ⟨-, hc⟩; cases hc
    rw [if_neg hy] at hcnt
    rcases call_next_step_count d now s (s.entries.set i { a with status := Status.served })
        a.ticket_index (some { a with status := Status.served }) d' with hstep | ⟨hdd, hstep⟩
    · rw [hstep]
      have := h d'
      omega
    · have hxa : (if a.service_date = d' ∧ a.status = Status.active then 1 else 0) = 1 :=
        if_pos ⟨by rw [hp.1, hdd], hp.2⟩
      rw [hxa] at hcnt
      have h1 : 1 ≤ countStatus Status.active d' s.entries :=
        countStatus_pos _ _ _ i a hget (by rw [hp.1, hdd]) hp.2
      have := h d'
      rw [hstep]
      omega
  · next hnone =>
    have hzero : ∀ d'', d'' = d → countStatus Status.active d'' s.entries = 0 := by
      intro d'' hdd
      apply countStatus_eq_zero
      intro e he hc
      exact (pickMin_none _ s.entries).mp hnone e he ⟨by rw [← hdd]; exact hc.1, hc.2⟩
    split
    · next j m hm =>
      rcases call_next_step_count d now s s.entries m.ticket_index none d' with hstep | ⟨hdd, hstep⟩
      · rw [hstep]; exact h d'
      · rw [hstep, hzero d' hdd]
    · rcases call_next_step_count d now s s.entries 0 none d' with hstep | ⟨hdd, hstep⟩
      · rw [hstep]; exact h d'
      · rw [hstep, hzero d' hdd]

theorem call_previous_preserves_active (d : Nat) (now : Timestamp) (s : Store)
    (h : ∀ d', countStatus Status.active d' s.entries ≤ 1) :
    ∀ d', countStatus Status.active d' (call_previous_number d now s).1.entries ≤ 1 := by
  intro d'
  unfold call_previous_number
  split
  · exact h d'
  · next i p hp =>
    obtain ⟨hpget, hpp, -⟩ := pickMax_some _ s.entries i p hp
    dsimp only
    split
    · next j a ha =>
      obtain ⟨haget, hap, -⟩ := pickMin_some _ s.entries j a ha
      have hij : i ≠ j := by
        intro hc
        rw [hc, haget] at hpget
        cases hpget
        rw [hap.2] at hpp
        cases hpp.2
      have hcnt1 := countStatus_set Status.active d' s.entries j a
        { a with status := Status.waiting } haget
      have hy1 : ¬(({ a with status := Status.waiting } : QueueEntry).service_date = d' ∧
          ({ a with status := Status.waiting } : QueueEntry).status = Status.active) := by
        rintro ⟨-, hc⟩; cases hc
      rw [if_neg hy1] at hcnt1
      have hget2 : (s.entries.set j { a with status := Status.waiting }).get? i = some p := by
        rw [get?_set_ne' _ j i _ (Ne.symm hij)]; exact hpget
      have hcnt2 := countStatus_set Status.active d'
        (s.entries.set j { a with status := Status.waiting }) i p
        { p with status := Status.active } hget2
      have hxp : ¬(p.service_date = d' ∧ p.status = Status.active) := by
        rintro ⟨-, hc⟩; rw [hpp.2] at hc; cases hc
      rw [if_neg hxp] at hcnt2
      by_cases hdd : d' = d
      · have hxa : (if a.service_date = d' ∧ a.status = Status.active then 1 else 0) = 1 :=
          if_pos ⟨by rw [hap.1, hdd], hap.2⟩
        rw [hxa] at hcnt1
        have hyp : (if ({ p with status := Status.active } : QueueEntry).service_date = d' ∧
            ({ p with status := Status.active } : QueueEntry).status = Status.active
            then 1 else 0) = 1 := if_pos ⟨by rw [show ({ p with status := Status.active } :
              QueueEntry).service_date = p.service_date from rfl, hpp.1, hdd], rfl⟩
        rw [hyp] at hcnt2
        have h1 : 1 ≤ countStatus Status.active d' s.entries :=
          countStatus_pos _ _ _ j a haget (by rw [hap.1, hdd]) hap.2
        have := h d'
        show countStatus Status.active d'
          ((s.entries.set j { a with status := Status.waiting }).set i
            { p with status := Status.active }) ≤ 1
        omega
      · have hxa : (if a.service_date = d' ∧ a.status = Status.active then 1 else 0) = 0 :=
          if_neg (by rintro ⟨h1, -⟩; rw [hap.1] at h1; exact hdd h1.symm)
        rw [hxa] at hcnt1
        have hyp : (if ({ p with status := Status.active } : QueueEntry).service_date = d' ∧
            ({ p with status := Status.active } : QueueEntry).status = Status.active
            then 1 else 0) = 0 := if_neg (by
          rintro ⟨h1, -⟩
          rw [show ({ p with status := Status.active } : QueueEntry).service_date =
            p.service_date from rfl, hpp.1] at h1
          exact hdd h1.symm)
        rw [hyp] at hcnt2
        have := h d'
        show countStatus Status.active d'
          ((s.entries.set j { a with status := Status.waiting }).set i
            { p with status := Status.active }) ≤ 1
        omega
    · next hnone =>
      have hcnt := countStatus_set Status.active d' s.entries i p
        { p with status := Status.active } hpget
      have hxp : ¬(p.service_date = d' ∧ p.status = Status.active) := by
        rintro ⟨-, hc⟩; rw [hpp.2] at hc; cases hc
      rw [if_neg hxp] at hcnt
      by_cases hdd : d' = d
      · have hzero : countStatus Status.active d' s.entries = 0 := by
          apply countStatus_eq_zero
          intro e he hc
          exact (pickMin_none _ s.entries).mp hnone e he ⟨by rw [← hdd]; exact hc.1, hc.2⟩
        have hyp : (if ({ p with status := Status.active } : QueueEntry).service_date = d' ∧
            ({ p with status := Status.active } : QueueEntry).status = Status.active
            then 1 else 0) ≤ 1 := by split <;> omega
        show countStatus Status.active d'
          (s.entries.set i { p with status := Status.active }) ≤ 1
        omega
      · have hyp : (if ({ p with status := Status.active } : QueueEntry).service_date = d' ∧
            ({ p with status := Status.active } : QueueEntry).status = Status.active
            then 1 else 0) = 0 := if_neg (by
          rintro ⟨h1, -⟩
          rw [show ({ p with status := Status.active } : QueueEntry).service_date =
            p.service_date from rfl, hpp.1] at h1
          exact hdd h1.symm)
        rw [hyp] at hcnt
        have := h d'
        show countStatus Status.active d'
          (s.entries.set i { p with status := Status.active }) ≤ 1
        omega

/-- The states reachable from the empty store by any sequence of Issue
(`create_entry`), Edit (`update_entry`), CallNext and CallPrevious calls. -/
inductive Reachable : Store → Prop where
  | empty : Reachable emptyStore
  | issue (s : Store) (d : Nat) (name phone : List Char) (b : Option Nat) (now : Timestamp) :
      Reachable s → Reachable (create_entry d name phone b now s).1
  | edit (s : Store) (eid : Nat) (n? p? : Option (List Char)) (b? : Option (Option Nat))
      (today : Nat) (now : Timestamp) :
      Reachable s → Reachable (update_entry eid n? p? b? today now s).1
  | next (s : Store) (d : Nat) (now : Timestamp) :
      Reachable s → Reachable (call_next_number d now s).1
  | previous (s : Store) (d : Nat) (now : Timestamp) :
      Reachable s → Reachable (call_previous_number d now s).1

/-- C2: in every store reachable from the empty store by Issue, Edit, CallNext
and CallPrevious, at most one entry per service date has status `active`. -/
theorem at_most_one_active (s : Store) (h : Reachable s) :
    ∀ d, countStatus Status.active d s.entries ≤ 1 := by
  induction h with
  | empty => intro d; simp [emptyStore, countStatus]
  | issue s d name phone b now _ ih =>
    exact create_entry_preserves_active d name phone b now s ih
  | edit s eid n? p? b? today now _ ih =>
    exact update_entry_preserves_active eid n? p? b? today now s ih
  | next s d now _ ih => exact call_next_preserves_active d now s ih
  | previous s d now _ ih => exact call_previous_preserves_active d now s ih

/-- C2 witness: a concrete reachable store (issue a ticket, then call next)
satisfies the invariant. -/
theorem at_most_one_active_witness :
    Reachable (call_next_number 0 ⟨0,0,0,0,0⟩
      (create_entry 0 ['A'] ['0','9','1','2','3','4','5','6','7','8','9'] none
        ⟨0,0,0,0,0⟩ emptyStore).1).1 ∧
    countStatus Status.active 0 (call_next_number 0 ⟨0,0,0,0,0⟩
      (create_entry 0 ['A'] ['0','9','1','2','3','4','5','6','7','8','9'] none
        ⟨0,0,0,0,0⟩ emptyStore).1).1.entries ≤ 1 :=
  have h : Reachable (call_next_number 0 ⟨0,0,0,0,0⟩
      (create_entry 0 ['A'] ['0','9','1','2','3','4','5','6','7','8','9'] none
        ⟨0,0,0,0,0⟩ emptyStore).1).1 :=
    Reachable.next _ 0 ⟨0,0,0,0,0⟩
      (Reachable.issue emptyStore 0 ['A'] ['0','9','1','2','3','4','5','6','7','8','9'] none
        ⟨0,0,0,0,0⟩ Reachable.empty)
  ⟨h, at_most_one_active _ h 0⟩

/-! ## The CallNext/CallPrevious round-trip (C1) -/

theorem chi_eval (e : QueueEntry) (d' : Nat) (st st' : Status)
    (hd : e.service_date = d') (hst : e.status = st') :
    (if e.service_date = d' ∧ e.status = st then 1 else 0) =
      (if st' = st then 1 else 0) := by
  by_cases h : st' = st
  · subst h; rw [if_pos ⟨hd, hst⟩, if_pos rfl]
  · rw [if_neg (by rintro ⟨-, hc⟩; rw [hst] at hc; exact h hc), if_neg h]

theorem call_previous_entries_eq (d : Nat) (t : Timestamp) (s : Store) (k q : Nat)
    (p m : QueueEntry)
    (hp : get_last_served_entry d s.entries = some (k, p))
    (hm : get_active_entry d s.entries = some (q, m)) :
    (call_previous_number d t s).1.entries =
      (s.entries.set q { m with status := Status.waiting }).set k
        { p with status := Status.active } := by
  unfold call_previous_number
  rw [hp]
  dsimp only
  rw [hm]
  rfl

/-- Triple `(waiting, active, served)` of per-status counts for date `d`. -/
def statusCounts (d : Nat) (l : List QueueEntry) : Nat × Nat × Nat :=
  (countStatus Status.waiting d l, countStatus Status.active d l, countStatus Status.served d l)

/-- A two-entry store — ticket 1 `served`, ticket 2 `waiting`, nothing
`active` — exhibiting the failure of the naive round-trip law. -/
def roundtripCounterStore : Store :=
  { days := [],
    entries := [⟨1, 0, 1, ['0','0','1'], ['a'], ['p'], none, Status.served⟩,
                ⟨2, 0, 2, ['0','0','2'], ['b'], ['q'], none, Status.waiting⟩],
    snapshots := [], nextId := 3 }

/-- C1 counterexample: with one `served` and one `waiting` entry but no active
entry, `CallNext` activates the waiting entry (so this is not the no-op case),
yet `CallNext ; CallPrevious` changes the status multiset: the served entry
ends `active` and nothing is `served` any more. -/
theorem call_next_previous_not_roundtrip :
    (call_next_number 0 ⟨0,0,0,0,0⟩ roundtripCounterStore).2.1 ≠ none ∧
    statusCounts 0 ((call_previous_number 0 ⟨0,0,0,0,0⟩
        (call_next_number 0 ⟨0,0,0,0,0⟩ roundtripCounterStore).1).1.entries) ≠
      statusCounts 0 roundtripCounterStore.entries := by
  constructor <;> decide

/-- C1 (amended): when the date has an active entry *and* a waiting entry
before the call, `CallNext` immediately followed by `CallPrevious` restores
the per-status entry counts of the date.  (Besides the claim's no-op
exception, the law also fails when no entry was active before the `CallNext`,
as the counterexample shows.) -/
theorem call_next_previous_roundtrip (s : Store) (d : Nat) (t1 t2 : Timestamp)
    (hact : ∃ e ∈ s.entries, e.service_date = d ∧ e.status = Status.active)
    (hwait : ∃ e ∈ s.entries, e.service_date = d ∧ e.status = Status.waiting) :
    statusCounts d ((call_previous_number d t2
        (call_next_number d t1 s).1).1.entries) = statusCounts d s.entries := by
  obtain ⟨a0, ha0, ha0d, ha0st⟩ := hact
  obtain ⟨w, hw, hwd, hwst⟩ := hwait
  have hsomeA : (get_active_entry d s.entries).isSome :=
    pickMin_isSome _ s.entries a0 ha0 ⟨ha0d, ha0st⟩
  rcases ha : get_active_entry d s.entries with _ | ⟨i, a⟩
  · rw [ha] at hsomeA; cases hsomeA
  obtain ⟨haget, hap, -⟩ := pickMin_some _ s.entries i a ha
  have hnext1 : call_next_number d t1 s =
      call_next_step d t1 s (s.entries.set i { a with status := Status.served })
        a.ticket_index (some { a with status := Status.served }) := by
    unfold call_next_number
    rw [ha]
  have hwl1 : w ∈ s.entries.set i { a with status := Status.served } :=
    (mem_set_status s.entries i a { a with status := Status.served } w haget
      (by rw [hap.2, hwst]; intro hc; cases hc)
      (by rw [hwst]; intro hc; cases hc)).mpr hw
  have hsomeN : (get_next_waiting_entry d a.ticket_index
      (s.entries.set i { a with status := Status.served })).isSome :=
    get_next_waiting_isSome d _ _ w hwl1 hwd hwst
  rcases hn : get_next_waiting_entry d a.ticket_index
      (s.entries.set i { a with status := Status.served }) with _ | ⟨j, n⟩
  · rw [hn] at hsomeN; cases hsomeN
  obtain ⟨hnget, hnd, hnst⟩ := get_next_waiting_some d _ _ j n hn
  set l2 := (s.entries.set i { a with status := Status.served }).set j
    { n with status := Status.active } with hl2def
  have hnext2 : call_next_step d t1 s (s.entries.set i { a with status := Status.served })
      a.ticket_index (some { a with status := Status.served }) =
      (record_queue_snapshot d t1 { s with entries := l2 },
       some { n with status := Status.active }, some { a with status := Status.served }) := by
    unfold call_next_step
    rw [hn]
  have hij : j ≠ i := by
    intro hc
    have h1 : (s.entries.set i { a with status := Status.served }).get? i =
        some { a with status := Status.served } := get?_set_self s.entries i a _ haget
    rw [hc, h1] at hnget
    cases hnget
    exact absurd hnst (by simp)
  have ha'l2 : l2.get? i = some { a with status := Status.served } := by
    rw [hl2def, get?_set_ne' _ j i _ hij]
    exact get?_set_self s.entries i a _ haget
  have hsomeP : (get_last_served_entry d l2).isSome :=
    pickMax_isSome _ l2 { a with status := Status.served } (List.get?_mem ha'l2) ⟨hap.1, rfl⟩
  rcases hpk : get_last_served_entry d l2 with _ | ⟨k, p⟩
  · rw [hpk] at hsomeP; cases hsomeP
  obtain ⟨hpget, hpp, -⟩ := pickMax_some _ l2 k p hpk
  have hn'l2 : l2.get? j = some { n with status := Status.active } := by
    rw [hl2def]
    exact get?_set_self _ j n _ hnget
  have hsomeM : (get_active_entry d l2).isSome :=
    pickMin_isSome _ l2 { n with status := Status.active } (List.get?_mem hn'l2) ⟨hnd, rfl⟩
  rcases hm : get_active_entry d l2 with _ | ⟨q, m⟩
  · rw [hm] at hsomeM; cases hsomeM
  obtain ⟨hmget, hmp, -⟩ := pickMin_some _ l2 q m hm
  have hkq : k ≠ q := by
    intro hc
    rw [hc, hmget] at hpget
    cases hpget
    rw [hmp.2] at hpp
    exact absurd hpp.2 (by intro hx; cases hx)
  have hrec : (record_queue_snapshot d t1 { s with entries := l2 }).entries = l2 := rfl
  have hprev := call_previous_entries_eq d t2
    (record_queue_snapshot d t1 { s with entries := l2 }) k q p m hpk hm
  rw [hrec] at hprev
  rw [hnext1, hnext2]
  dsimp only
  rw [hprev]
  have hpl3 : (l2.set q { m with status := Status.waiting }).get? k = some p := by
    rw [get?_set_ne' _ q k _ (Ne.symm hkq)]
    exact hpget
  have main : ∀ st : Status,
      countStatus st d ((l2.set q { m with status := Status.waiting }).set k
        { p with status := Status.active }) = countStatus st d s.entries := by
    intro st
    have hc1 := countStatus_set st d s.entries i a { a with status := Status.served } haget
    rw [chi_eval a d st Status.active hap.1 hap.2,
        chi_eval { a with status := Status.served } d st Status.served hap.1 rfl] at hc1
    have hc2 := countStatus_set st d (s.entries.set i { a with status := Status.served }) j n
      { n with status := Status.active } hnget
    rw [chi_eval n d st Status.waiting hnd hnst,
        chi_eval { n with status := Status.active } d st Status.active hnd rfl] at hc2
    rw [← hl2def] at hc2
    have hc3 := countStatus_set st d l2 q m { m with status := Status.waiting } hmget
    rw [chi_eval m d st Status.active hmp.1 hmp.2,
        chi_eval { m with status := Status.waiting } d st Status.waiting hmp.1 rfl] at hc3
    have hc4 := countStatus_set st d (l2.set q { m with status := Status.waiting }) k p
      { p with status := Status.active } hpl3
    rw [chi_eval p d st Status.served hpp.1 hpp.2,
        chi_eval { p with status := Status.active } d st Status.active hpp.1 rfl] at hc4
    omega
  simp only [statusCounts, main Status.waiting, main Status.active, main Status.served]

/-- A two-entry store — ticket 1 `active`, ticket 2 `waiting` — used to
exercise the round-trip law at a concrete input. -/
def roundtripWitnessStore : Store :=
  { days := [],
    entries := [⟨1, 0, 1, ['0','0','1'], ['a'], ['p'], none, Status.active⟩,
                ⟨2, 0, 2, ['0','0','2'], ['b'], ['q'], none, Status.waiting⟩],
    snapshots := [], nextId := 3 }

/-- C1 witness: one active and one waiting entry; the round trip restores the
status counts. -/
theorem call_next_previous_roundtrip_witness :
    (∃ e ∈ roundtripWitnessStore.entries,
      e.service_date = 0 ∧ e.status = Status.active) ∧
    (∃ e ∈ roundtripWitnessStore.entries,
      e.service_date = 0 ∧ e.status = Status.waiting) ∧
    statusCounts 0 ((call_previous_number 0 ⟨0,0,2,0,0⟩
        (call_next_number 0 ⟨0,0,1,0,0⟩ roundtripWitnessStore).1).1.entries) =
      statusCounts 0 roundtripWitnessStore.entries :=
  ⟨by decide, by decide,
   call_next_previous_roundtrip roundtripWitnessStore 0 ⟨0,0,1,0,0⟩ ⟨0,0,2,0,0⟩
     (by decide) (by decide)⟩

/-! ## The `CallNext` selection rule (C5) -/

theorem get_next_waiting_cases (d after : Nat) (l : List QueueEntry) (j : Nat) (n : QueueEntry)
    (h : get_next_waiting_entry d after l = some (j, n)) :
    n ∈ l ∧ n.service_date = d ∧ n.status = Status.waiting ∧
    ((after < n.ticket_index ∧ ∀ e ∈ l, e.service_date = d → e.status = Status.waiting →
        after < e.ticket_index → n.ticket_index ≤ e.ticket_index) ∨
     ((∀ e ∈ l, e.service_date = d → e.status = Status.waiting → e.ticket_index ≤ after) ∧
      ∀ e ∈ l, e.service_date = d → e.status = Status.waiting →
        n.ticket_index ≤ e.ticket_index)) := by
  unfold get_next_waiting_entry at h
  split at h
  · next r hr =>
    cases h
    obtain ⟨hget, hp, hmin⟩ := pickMin_some _ l j n hr
    refine ⟨List.get?_mem hget, hp.1, hp.2.1, Or.inl ⟨hp.2.2, ?_⟩⟩
    intro e he hed hest hlt
    exact hmin e he ⟨hed, hest, hlt⟩
  · next hr =>
    obtain ⟨hget, hp, hmin⟩ := pickMin_some _ l j n h
    have hnone := (pickMin_none (fun e => e.service_date = d ∧ e.status = Status.waiting ∧
      after < e.ticket_index) l).mp hr
    refine ⟨List.get?_mem hget, hp.1, hp.2, Or.inr ⟨?_, ?_⟩⟩
    · intro e he hed hest
      by_contra hgt
      exact hnone e he ⟨hed, hest, by omega⟩
    · intro e he hed hest
      exact hmin e he ⟨hed, hest⟩

theorem get_next_waiting_none (d after : Nat) (l : List QueueEntry)
    (h : get_next_waiting_entry d after l = none) :
    ∀ e ∈ l, e.service_date = d → e.status ≠ Status.waiting := by
  unfold get_next_waiting_entry at h
  split at h
  · cases h
  · intro e he hed hst
    exact (pickMin_none _ l).mp h e he ⟨hed, hst⟩

theorem call_next_step_chosen (d : Nat) (now : Timestamp) (s : Store) (l1 : List QueueEntry)
    (last : Nat) (se : Option QueueEntry) :
    match (call_next_step d now s l1 last se).2.1 with
    | some a' => ∃ a ∈ l1, a.service_date = d ∧ a.status = Status.waiting ∧
        a' = { a with status := Status.active } ∧
        ((last < a.ticket_index ∧ ∀ e ∈ l1, e.service_date = d → e.status = Status.waiting →
            last < e.ticket_index → a.ticket_index ≤ e.ticket_index) ∨
         ((∀ e ∈ l1, e.service_date = d → e.status = Status.waiting → e.ticket_index ≤ last) ∧
          ∀ e ∈ l1, e.service_date = d → e.status = Status.waiting →
            a.ticket_index ≤ e.ticket_index))
    | none => ∀ e ∈ l1, e.service_date = d → e.status ≠ Status.waiting := by
  unfold call_next_step
  rcases hn : get_next_waiting_entry d last l1 with _ | ⟨j, n⟩
  · dsimp only
    exact get_next_waiting_none d last l1 hn
  · dsimp only
    obtain ⟨hmem, hnd, hnst, hdisj⟩ := get_next_waiting_cases d last l1 j n hn
    exact ⟨n, hmem, hnd, hnst, rfl, hdisj⟩

/-- C5: `call_next_number` activates exactly the entry the spec describes:
with `L` the index of the current active entry (else the highest served index,
else 0), it activates the lowest-index waiting entry with index above `L`,
falling back to the lowest-index waiting entry overall, and activates nothing
when no waiting entry exists. -/
theorem call_next_selection (s : Store) (d : Nat) (now : Timestamp)
    (_hone : countStatus Status.active d s.entries ≤ 1) :
    ∃ L : Nat,
      ((∃ a ∈ s.entries, a.service_date = d ∧ a.status = Status.active ∧ L = a.ticket_index) ∨
       ((∀ e ∈ s.entries, e.service_date = d → e.status ≠ Status.active) ∧
        ∃ m ∈ s.entries, m.service_date = d ∧ m.status = Status.served ∧ L = m.ticket_index ∧
          ∀ e ∈ s.entries, e.service_date = d → e.status = Status.served →
            e.ticket_index ≤ m.ticket_index) ∨
       ((∀ e ∈ s.entries, e.service_date = d → e.status ≠ Status.active) ∧
        (∀ e ∈ s.entries, e.service_date = d → e.status ≠ Status.served) ∧ L = 0)) ∧
      (match (call_next_number d now s).2.1 with
       | some a' => ∃ a ∈ s.entries, a.service_date = d ∧ a.status = Status.waiting ∧
           a' = { a with status := Status.active } ∧
           ((L < a.ticket_index ∧ ∀ e ∈ s.entries, e.service_date = d →
               e.status = Status.waiting → L < e.ticket_index →
               a.ticket_index ≤ e.ticket_index) ∨
            ((∀ e ∈ s.entries, e.service_date = d → e.status = Status.waiting →
                e.ticket_index ≤ L) ∧
             ∀ e ∈ s.entries, e.service_date = d → e.status = Status.waiting →
               a.ticket_index ≤ e.ticket_index))
       | none => ∀ e ∈ s.entries, e.service_date = d → e.status ≠ Status.waiting) := by
  rcases ha : get_active_entry d s.entries with _ | ⟨i, a⟩
  · have hnoact : ∀ e ∈ s.entries, e.service_date = d → e.status ≠ Status.active := by
      intro e he hed hst
      exact (pickMin_none _ s.entries).mp ha e he ⟨hed, hst⟩
    rcases hls : get_last_served_entry d s.entries with _ | ⟨k, m⟩
    · have hred : call_next_number d now s = call_next_step d now s s.entries 0 none := by
        unfold call_next_number
        rw [ha, hls]
      refine ⟨0, Or.inr (Or.inr ⟨hnoact, ?_, rfl⟩), ?_⟩
      · intro e he hed hst
        exact (pickMax_none _ s.entries).mp hls e he ⟨hed, hst⟩
      · rw [hred]
        exact call_next_step_chosen d now s s.entries 0 none
    · obtain ⟨hmget, hmp, hmmax⟩ := pickMax_some _ s.entries k m hls
      have hred : call_next_number d now s =
          call_next_step d now s s.entries m.ticket_index none := by
        unfold call_next_number
        rw [ha, hls]
      refine ⟨m.ticket_index,
        Or.inr (Or.inl ⟨hnoact, m, List.get?_mem hmget, hmp.1, hmp.2, rfl, ?_⟩), ?_⟩
      · intro e he hed hst
        exact hmmax e he ⟨hed, hst⟩
      · rw [hred]
        exact call_next_step_chosen d now s s.entries m.ticket_index none
  · obtain ⟨haget, hap, -⟩ := pickMin_some _ s.entries i a ha
    have hred : call_next_number d now s = call_next_step d now s
        (s.entries.set i { a with status := Status.served }) a.ticket_index
        (some { a with status := Status.served }) := by
      unfold call_next_number
      rw [ha]
    refine ⟨a.ticket_index, Or.inl ⟨a, List.get?_mem haget, hap.1, hap.2, rfl⟩, ?_⟩
    rw [hred]
    have hstep := call_next_step_chosen d now s
      (s.entries.set i { a with status := Status.served }) a.ticket_index
      (some { a with status := Status.served })
    have htrans : ∀ e : QueueEntry, e.status = Status.waiting →
        (e ∈ s.entries.set i { a with status := Status.served } ↔ e ∈ s.entries) := by
      intro e hest
      exact mem_set_status s.entries i a _ e haget
        (by rw [hap.2, hest]; intro hc; cases hc)
        (by rw [hest]; intro hc; cases hc)
    rcases hc : (call_next_step d now s (s.entries.set i { a with status := Status.served })
        a.ticket_index (some { a with status := Status.served })).2.1 with _ | a'
    · rw [hc] at hstep
      dsimp only at hstep
      show ∀ e ∈ s.entries, e.service_date = d → e.status ≠ Status.waiting
      intro e he hed hst
      exact hstep e ((htrans e hst).mpr he) hed hst
    · rw [hc] at hstep
      dsimp only at hstep
      dsimp only
      obtain ⟨aw, hawmem, hawd, hawst, haweq, hdisj⟩ := hstep
      refine ⟨aw, (htrans aw hawst).mp hawmem, hawd, hawst, haweq, ?_⟩
      rcases hdisj with ⟨hlt, hminl⟩ | ⟨hall, hminl⟩
      · exact Or.inl ⟨hlt, fun e he hed hest hlt' =>
          hminl e ((htrans e hest).mpr he) hed hest hlt'⟩
      · exact Or.inr ⟨fun e he hed hest => hall e ((htrans e hest).mpr he) hed hest,
          fun e he hed hest => hminl e ((htrans e hest).mpr he) hed hest⟩

/-- A store with ticket 1 `active` and ticket 2 `waiting`, used to exercise
the selection rule at a concrete input. -/
def selectionWitnessStore : Store :=
  { days := [],
    entries := [⟨1, 0, 1, ['0','0','1'], ['a'], ['p'], none, Status.active⟩,
                ⟨2, 0, 2, ['0','0','2'], ['b'], ['q'], none, Status.waiting⟩],
    snapshots := [], nextId := 3 }

/-- C5 witness: the selection rule at a concrete store with one active and one
waiting entry. -/
theorem call_next_selection_witness :
    countStatus Status.active 0 selectionWitnessStore.entries ≤ 1 ∧
    (∃ L : Nat,
      ((∃ a ∈ selectionWitnessStore.entries,
          a.service_date = 0 ∧ a.status = Status.active ∧ L = a.ticket_index) ∨
       ((∀ e ∈ selectionWitnessStore.entries, e.service_date = 0 → e.status ≠ Status.active) ∧
        ∃ m ∈ selectionWitnessStore.entries,
          m.service_date = 0 ∧ m.status = Status.served ∧ L = m.ticket_index ∧
          ∀ e ∈ selectionWitnessStore.entries, e.service_date = 0 → e.status = Status.served →
            e.ticket_index ≤ m.ticket_index) ∨
       ((∀ e ∈ selectionWitnessStore.entries, e.service_date = 0 → e.status ≠ Status.active) ∧
        (∀ e ∈ selectionWitnessStore.entries, e.service_date = 0 → e.status ≠ Status.served) ∧
        L = 0)) ∧
      (match (call_next_number 0 ⟨0,0,0,0,0⟩ selectionWitnessStore).2.1 with
       | some a' => ∃ a ∈ selectionWitnessStore.entries,
           a.service_date = 0 ∧ a.status = Status.waiting ∧
           a' = { a with status := Status.active } ∧
           ((L < a.ticket_index ∧ ∀ e ∈ selectionWitnessStore.entries, e.service_date = 0 →
               e.status = Status.waiting → L < e.ticket_index →
               a.ticket_index ≤ e.ticket_index) ∨
            ((∀ e ∈ selectionWitnessStore.entries, e.service_date = 0 →
                e.status = Status.waiting → e.ticket_index ≤ L) ∧
             ∀ e ∈ selectionWitnessStore.entries, e.service_date = 0 →
               e.status = Status.waiting → a.ticket_index ≤ e.ticket_index))
       | none => ∀ e ∈ selectionWitnessStore.entries, e.service_date = 0 →
           e.status ≠ Status.waiting)) :=
  ⟨by decide, call_next_selection selectionWitnessStore 0 ⟨0,0,0,0,0⟩ (by decide)⟩
